import Mathlib

/-!
Verification of the IBAN extraction-and-validation engine of the
iban-cam-scanner repository. The definitions below are a shallow embedding of
src/lib/ibanValidator.ts: strings are modelled as lists of characters,
the five distinct error detail strings of the validator are modelled as an
error-kind enumeration, and JavaScript regular-expression scanning is modelled
by an explicit leftmost, greedy, non-overlapping scanner for the one concrete
pattern the source uses.
-/

namespace Iban

/-- Character class of the regex fragment that matches one uppercase ASCII
letter, written as a bound on the character code. -/
def isUpperLetter (c : Char) : Bool := 65 ≤ c.toNat && c.toNat ≤ 90

/-- Character class of the regex fragment that matches one ASCII digit. -/
def isDigitChar (c : Char) : Bool := 48 ≤ c.toNat && c.toNat ≤ 57

/-- Character class of the regex fragment that matches one uppercase letter or
digit. -/
def isUpperAlnum (c : Char) : Bool := isUpperLetter c || isDigitChar c

/-- ASCII whitespace as matched by the JavaScript whitespace class: space, tab,
newline, vertical tab, form feed, carriage return. The repository only feeds
ASCII OCR text to the engine. -/
def jsWhitespace (c : Char) : Bool :=
  c.toNat = 32 || c.toNat = 9 || c.toNat = 10 || c.toNat = 11 || c.toNat = 12 || c.toNat = 13

/-- JavaScript String.prototype.trim: drop whitespace from both ends. -/
def trimChars (l : List Char) : List Char :=
  ((l.dropWhile jsWhitespace).reverse.dropWhile jsWhitespace).reverse

/-- Embedding of cleanIBAN: uppercase the input, strip every character that is
not an uppercase letter or digit, then trim. -/
def cleanIBANChars (l : List Char) : List Char :=
  trimChars ((l.map Char.toUpper).filter isUpperAlnum)

/-- String-level wrapper for cleanIBAN. -/
def cleanIBAN (s : String) : String := String.mk (cleanIBANChars s.data)

/-- The IBAN_LENGTHS table of the source: country code to expected total IBAN
length. -/
def ibanLengthTable : List (String × Nat) :=
  [("AD", 24), ("AE", 23), ("AL", 28), ("AT", 20), ("AZ", 28), ("BA", 20), ("BE", 16),
   ("BG", 22), ("BH", 22), ("BR", 29), ("BY", 28), ("CH", 21), ("CR", 22), ("CY", 28),
   ("CZ", 24), ("DE", 22), ("DK", 18), ("DO", 28), ("EE", 20), ("EG", 29), ("ES", 24),
   ("FI", 18), ("FO", 18), ("FR", 27), ("GB", 22), ("GE", 22), ("GI", 23), ("GL", 18),
   ("GR", 27), ("GT", 28), ("HR", 21), ("HU", 28), ("IE", 22), ("IL", 23), ("IS", 26),
   ("IT", 27), ("JO", 30), ("KW", 30), ("KZ", 20), ("LB", 28), ("LC", 32), ("LI", 21),
   ("LT", 20), ("LU", 20), ("LV", 21), ("MC", 27), ("MD", 24), ("ME", 22), ("MK", 19),
   ("MR", 27), ("MT", 31), ("MU", 30), ("NL", 18), ("NO", 15), ("PK", 24), ("PL", 28),
   ("PS", 29), ("PT", 25), ("QA", 29), ("RO", 24), ("RS", 22), ("SA", 24), ("SE", 24),
   ("SI", 19), ("SK", 24), ("SM", 27), ("TN", 24), ("TR", 26), ("UA", 29), ("VA", 22),
   ("VG", 24), ("XK", 20)]

/-- Lookup in the country length table. -/
def IBAN_LENGTHS (cc : String) : Option Nat :=
  (ibanLengthTable.find? (fun p => p.1 == cc)).map (fun p => p.2)

/-- The country length guard of validateIBAN: the country code is known and
the cleaned length differs from the table entry. The truthiness test of the
source holds exactly when the table lookup succeeds, no table entry being
zero. -/
def countryLenMismatch (cleaned : List Char) : Bool :=
  match IBAN_LENGTHS (String.mk (cleaned.take 2)) with
  | some expectedLength => cleaned.length != expectedLength
  | none => false

/-- Error kinds of validateIBAN. The source returns a distinct Arabic error
and detail string from each of its five failure branches; each branch is
modelled as one kind, in source order. -/
inductive ErrKind where
  | tooShort
  | badCountryCode
  | badCheckDigits
  | wrongLengthForCountry
  | checksumFailed
deriving DecidableEq, Repr

/-- Result record of validateIBAN, with the error string modelled as a kind. -/
structure ValidationResult where
  isValid : Bool
  error : Option ErrKind
deriving DecidableEq, Repr

/-- Embedding of charToNumber: the character code minus 55, so that A maps to
10 and Z maps to 35. -/
def charToNumber (c : Char) : Nat := c.toNat - 55

/-- Numeric value of a decimal digit character, as parseInt applied to one
digit. -/
def parseDigit (c : Char) : Nat := c.toNat - 48

/-- Embedding of mod97: the streaming loop over every character of the numeric
string, with the remainder multiplied by 10 and reduced after each digit. -/
def mod97 (numericString : List Char) : Nat :=
  numericString.foldl (fun remainder c => (remainder * 10 + parseDigit c) % 97) 0

/-- One step of the letter expansion inside validateIBAN: an uppercase letter
becomes the decimal digits of its charToNumber value, and every other character
is kept. For letters A to Z the value lies between 10 and 35, so its decimal
string is exactly the digit of the tens followed by the digit of the units,
which is how the source's number-to-string conversion is written out here. -/
def expandChar (c : Char) : List Char :=
  if isUpperLetter c then
    [Char.ofNat (48 + charToNumber c / 10), Char.ofNat (48 + charToNumber c % 10)]
  else [c]

/-- The numericString built inside validateIBAN from the rearranged IBAN. -/
def numericStringOf (rearranged : List Char) : List Char :=
  rearranged.flatMap expandChar

/-- Embedding of validateIBAN on the character list of the input: length
check, anchored two-letter country code check, anchored two-digit check-digit
check, country length check, then the mod-97 checksum over the rearranged and
letter-expanded string. -/
def validateIBANChars (iban : List Char) : ValidationResult :=
  let cleaned := cleanIBANChars iban
  if cleaned.length < 15 then
    { isValid := false, error := some .tooShort }
  else if !((cleaned.take 2).length == 2 && (cleaned.take 2).all isUpperLetter) then
    { isValid := false, error := some .badCountryCode }
  else if !(((cleaned.drop 2).take 2).length == 2 && ((cleaned.drop 2).take 2).all isDigitChar) then
    { isValid := false, error := some .badCheckDigits }
  else if countryLenMismatch cleaned then
    { isValid := false, error := some .wrongLengthForCountry }
  else if mod97 (numericStringOf (cleaned.drop 4 ++ cleaned.take 4)) != 1 then
    { isValid := false, error := some .checksumFailed }
  else
    { isValid := true, error := none }

/-- String-level wrapper for validateIBAN. -/
def validateIBAN (iban : String) : ValidationResult := validateIBANChars iban.data

/-- The confusions table of generateIBANVariations, in source order. -/
def confusions : List (List Char) :=
  [['0', 'O', 'Q', 'D'], ['1', 'I', 'L', '|'], ['5', 'S'], ['8', 'B'], ['6', 'G'], ['7', 'T']]

/-- One single-position substitution: the prefix before position i, the
alternate character, then the suffix after position i. -/
def substituteAt (iban : List Char) (i : Nat) (alt : Char) : List Char :=
  iban.take i ++ alt :: iban.drop (i + 1)

/-- The inner alternate loop of generateIBANVariations: for each alternate of
the matched group that differs from the current character, append one
variation, stopping as soon as 15 variations have accumulated. -/
def pushAlternates (iban : List Char) (i : Nat) (char : Char) :
    List Char → List (List Char) → List (List Char)
  | [], variations => variations
  | alt :: rest, variations =>
    if alt != char then
      let variations2 := variations ++ [substituteAt iban i alt]
      if 15 ≤ variations2.length then variations2
      else pushAlternates iban i char rest variations2
    else pushAlternates iban i char rest variations

/-- The position loop of generateIBANVariations over the positions from 2 to
the end, stopping once 15 variations exist; at each position the first
confusion group containing the character is used, matching the break after the
first group hit in the source. -/
def variationLoop (iban : List Char) : List Nat → List (List Char) → List (List Char)
  | [], variations => variations
  | i :: rest, variations =>
    if variations.length < 15 then
      match confusions.find? (fun group => group.contains (iban.getD i ' ')) with
      | some group =>
        variationLoop iban rest (pushAlternates iban i (iban.getD i ' ') group variations)
      | none => variationLoop iban rest variations
    else variations

/-- Embedding of generateIBANVariations on character lists: start from the
input itself and walk the positions from index 2 upward. -/
def generateIBANVariationsChars (iban : List Char) : List (List Char) :=
  variationLoop iban (List.range' 2 (iban.length - 2)) [iban]

/-- String-level wrapper for generateIBANVariations. -/
def generateIBANVariations (iban : String) : List String :=
  (generateIBANVariationsChars iban.data).map String.mk

/-- All single-position substitutions available at position i: the alternates
other than the character itself of the first confusion group containing the
character, in the group's listed order. -/
def substitutionsAt (iban : List Char) (i : Nat) : List (List Char) :=
  match confusions.find? (fun group => group.contains (iban.getD i ' ')) with
  | some group =>
    (group.filter (fun alt => alt != iban.getD i ' ')).map (substituteAt iban i)
  | none => []

/-- The unbounded variation enumeration: the input first, then every
single-position substitution, positions left to right from index 2, alternates
in group order. The imperative loop of the source computes exactly the first
15 entries of this list. -/
def variationStream (iban : List Char) : List (List Char) :=
  iban :: (List.range' 2 (iban.length - 2)).flatMap (substitutionsAt iban)

/-- The corrections list of extractIBANFromText, applied in order as global
single-character replacements to build the blanket-corrected text. -/
def corrections : List (Char × Char) :=
  [('O', '0'), ('Q', '0'), ('D', '0'), ('I', '1'), ('L', '1'), ('|', '1'), ('l', '1'),
   ('S', '5'), ('Z', '2'), ('B', '8'), ('G', '6'), ('T', '7')]

/-- Attempt to match the extraction pattern (two uppercase letters, two
digits, then one or more alphanumerics, taken greedily) at the head of the
list; on success return the match together with the remaining suffix. -/
def matchAt : List Char → Option (List Char × List Char)
  | a :: b :: c :: d :: rest =>
    if isUpperLetter a && isUpperLetter b && isDigitChar c && isDigitChar d
        && !(rest.takeWhile isUpperAlnum).isEmpty then
      some (a :: b :: c :: d :: rest.takeWhile isUpperAlnum, rest.dropWhile isUpperAlnum)
    else none
  | _ => none

/-- Leftmost, greedy, non-overlapping scan for the extraction pattern, as the
JavaScript global string match performs it: try to match at each position,
and continue after the end of each match. The fuel argument, instantiated
with the text length (which the scan can never exhaust, since every step
consumes at least one character), makes the recursion structural. -/
def scanGo : Nat → List Char → List (List Char)
  | 0, _ => []
  | _ + 1, [] => []
  | fuel + 1, x :: xs =>
    match matchAt (x :: xs) with
    | some (m, r) => m :: scanGo fuel r
    | none => scanGo fuel xs

/-- All matches of the extraction pattern in the given text. -/
def scanMatches (l : List Char) : List (List Char) := scanGo l.length l

/-- The two texts extractIBANFromText searches: the whitespace-stripped
uppercased text, and its blanket-corrected copy. -/
def textsToTry (text : List Char) : List (List Char) :=
  let cleanedText := (text.filter (fun c => !jsWhitespace c)).map Char.toUpper
  let correctedText :=
    corrections.foldl (fun t p => t.map (fun c => if c == p.1 then p.2 else c)) cleanedText
  [cleanedText, correctedText]

/-- Every candidate substring extractIBANFromText examines: the pattern
matches found in the cleaned text followed by those found in the
blanket-corrected text. -/
def examinedCandidates (text : List Char) : List (List Char) :=
  (textsToTry text).flatMap scanMatches

/-- For a match whose country code is in the length table, the exact-length
candidate that the source builds by taking the first expectedLength characters
of the match; taking never extends, so a short match is passed unchanged. -/
def exactIbanFor (potential : List Char) : Option (List Char) :=
  (IBAN_LENGTHS (String.mk (potential.take 2))).map
    (fun expectedLength => potential.take expectedLength)

/-- Processing of one regex match inside extractIBANFromText: for a known
country code validate the exact-length candidate and then its variations; for
an unknown country code try every prefix length from 18 to the minimum of 31
and the match length. -/
def tryMatch (potential : List Char) : Option (List Char) :=
  match exactIbanFor potential with
  | some exactIban =>
    if (validateIBANChars exactIban).isValid then some exactIban
    else (generateIBANVariationsChars exactIban).find? (fun v => (validateIBANChars v).isValid)
  | none =>
    (List.range' 18 (min 31 potential.length + 1 - 18)).findSome? (fun len =>
      let testIban := potential.take len
      if (validateIBANChars testIban).isValid then some testIban else none)

/-- Embedding of extractIBANFromText on character lists: search the cleaned
text and then the blanket-corrected text, and inside each text process the
pattern matches in order, returning the first success. -/
def extractFromTextChars (text : List Char) : Option (List Char) :=
  (textsToTry text).findSome? (fun t => (scanMatches t).findSome? tryMatch)

/-- String-level wrapper for extractIBANFromText. -/
def extractIBANFromText (text : String) : Option String :=
  (extractFromTextChars text.data).map String.mk

/-- Structural helper for the display formatter: every full block of four
characters receives one trailing space, exactly as the global replacement of
four arbitrary characters by themselves plus a space; the fuel argument is
instantiated with the length and is never exhausted. -/
def blocks4Go : Nat → List Char → List Char
  | 0, l => l
  | fuel + 1, l =>
    if 4 ≤ l.length then l.take 4 ++ ' ' :: blocks4Go fuel (l.drop 4) else l

/-- Embedding of formatIBANForDisplay: clean the input, append a space to each
full block of four characters, then trim the trailing space. -/
def formatIBANForDisplay (iban : String) : String :=
  String.mk (trimChars (blocks4Go (cleanIBANChars iban.data).length (cleanIBANChars iban.data)))

/-- Value of a digit string read as one decimal numeral. -/
def digitsVal (l : List Char) : Nat :=
  l.foldl (fun n c => n * 10 + parseDigit c) 0

/-- The country length guard of validateIBAN, stated positively: either the
country code is unknown, or the cleaned length equals the table entry. -/
def countryLenOK (cleaned : List Char) : Bool :=
  match IBAN_LENGTHS (String.mk (cleaned.take 2)) with
  | some expectedLength => cleaned.length == expectedLength
  | none => true

/-- A cleaned identifier that passes every guard of validateIBAN before the
checksum: length at least 15, two leading letters, two following digits, and
the country length table respected when the country code is known. -/
def wellFormedClean (cleaned : List Char) : Prop :=
  15 ≤ cleaned.length
  ∧ ((cleaned.take 2).length == 2 && (cleaned.take 2).all isUpperLetter) = true
  ∧ (((cleaned.drop 2).take 2).length == 2 && ((cleaned.drop 2).take 2).all isDigitChar) = true
  ∧ countryLenOK cleaned = true

instance (cleaned : List Char) : Decidable (wellFormedClean cleaned) := by
  unfold wellFormedClean
  infer_instance

/-- Shape of a match of the extraction pattern: two uppercase letters, two
digits, then a nonempty alphanumeric tail. -/
def candidateShape (m : List Char) : Prop :=
  ∃ a b c d rest, m = a :: b :: c :: d :: rest
    ∧ isUpperLetter a = true ∧ isUpperLetter b = true
    ∧ isDigitChar c = true ∧ isDigitChar d = true
    ∧ rest ≠ [] ∧ ∀ e ∈ rest, isUpperAlnum e = true

/-! ## Lemmas about the scanner -/

lemma matchAt_shape {l m r : List Char} (h : matchAt l = some (m, r)) :
    candidateShape m := by
  match l with
  | [] => simp [matchAt] at h
  | [a] => simp [matchAt] at h
  | [a, b] => simp [matchAt] at h
  | [a, b, c] => simp [matchAt] at h
  | a :: b :: c :: d :: rest =>
    by_cases hc : (isUpperLetter a && isUpperLetter b && isDigitChar c && isDigitChar d
        && !(rest.takeWhile isUpperAlnum).isEmpty) = true
    · rw [matchAt, if_pos hc] at h
      simp only [Bool.and_eq_true, Bool.not_eq_true', List.isEmpty_eq_false] at hc
      obtain ⟨⟨⟨⟨ha, hb⟩, hcd⟩, hd⟩, hne⟩ := hc
      obtain ⟨hm, hr⟩ := Prod.mk.injEq .. ▸ Option.some.injEq .. ▸ h
      exact ⟨a, b, c, d, rest.takeWhile isUpperAlnum, hm.symm, ha, hb, hcd, hd, hne,
        fun e he => List.mem_takeWhile_imp he⟩
    · rw [matchAt, if_neg hc] at h
      exact absurd h (by simp)

lemma scanGo_shape : ∀ (fuel : Nat) (l m : List Char), m ∈ scanGo fuel l → candidateShape m := by
  intro fuel
  induction fuel with
  | zero => intro l m h; simp [scanGo] at h
  | succ fuel ih =>
    intro l m h
    cases l with
    | nil => simp [scanGo] at h
    | cons x xs =>
      rw [scanGo] at h
      cases hma : matchAt (x :: xs) with
      | some pr =>
        obtain ⟨m0, r⟩ := pr
        rw [hma] at h
        rcases List.mem_cons.1 h with rfl | hmem
        · exact matchAt_shape hma
        · exact ih r m hmem
      | none =>
        rw [hma] at h
        exact ih xs m h

end Iban

namespace Iban

/-! ## Claim theorems -/

/-- Claim C2: validateIBAN accepts the well-known reference IBAN
"GB82 WEST 1234 5698 7654 32", and rejects the same identifier with the last
digit altered with the checksum-failure error kind. -/
theorem known_vector_validate :
    validateIBAN "GB82 WEST 1234 5698 7654 32" = { isValid := true, error := none }
    ∧ validateIBAN "GB82WEST12345698765433" =
        { isValid := false, error := some .checksumFailed } := by
  constructor <;> decide

/-- Claim C9: validateIBAN returns the too-short failure on every string whose
normalized form is shorter than 15 characters, the empty string included, and
a too-short result is returned exactly when the normalized length is below 15;
every outcome is a returned value of the total function, never an exception. -/
theorem tooShort_iff : ∀ s : String,
    ((cleanIBAN s).length < 15 →
      validateIBAN s = { isValid := false, error := some .tooShort })
    ∧ ((validateIBAN s).error = some ErrKind.tooShort ↔ (cleanIBAN s).length < 15) := by
  intro s
  have hc : (cleanIBAN s).length = (cleanIBANChars s.data).length := rfl
  by_cases h : (cleanIBANChars s.data).length < 15
  · refine ⟨fun _ => ?_, ?_⟩
    · unfold validateIBAN validateIBANChars
      rw [if_pos h]
    · unfold validateIBAN validateIBANChars
      rw [if_pos h, hc]
      simp [h]
  · refine ⟨fun hlt => absurd (hc ▸ hlt) h, ?_⟩
    rw [hc]
    unfold validateIBAN validateIBANChars
    rw [if_neg h]
    refine iff_of_false ?_ h
    split
    · simp
    · split
      · simp
      · split
        · simp
        · split <;> simp

/-- Witness for claim C9 at the empty string. -/
theorem tooShort_iff_witness :
    validateIBAN "" = { isValid := false, error := some .tooShort } :=
  (tooShort_iff "").1 (by decide)

/-- Counterexample for claim C4: the candidate "AB12X" is examined by the
extractor even though its alphanumeric tail has only one character and its
total length is 5, below the claimed lower bound of 8. -/
theorem candidate_shape_counterexample :
    "AB12X".data ∈ examinedCandidates "AB12X".data ∧ "AB12X".data.length < 8 := by
  constructor <;> decide

/-- Claim C4 as amended: every candidate the extractor examines, in the
cleaned or in the blanket-corrected text, is shaped as two uppercase letters,
two digits, then one or more alphanumeric characters — with no upper bound on
the tail, so the total length is at least 5 rather than between 8 and 34. -/
theorem candidate_shape_amended : ∀ (text m : List Char),
    m ∈ examinedCandidates text → candidateShape m ∧ 5 ≤ m.length := by
  intro text m h
  obtain ⟨t, _, hm⟩ := List.mem_flatMap.1 h
  have hs := scanGo_shape t.length t m hm
  refine ⟨hs, ?_⟩
  obtain ⟨a, b, c, d, rest, rfl, _, _, _, _, hne, _⟩ := hs
  have : 1 ≤ rest.length := List.length_pos.2 hne
  simp only [List.length_cons]
  omega

/-- Witness for claim C4 at a concrete examined candidate. -/
theorem candidate_shape_amended_witness :
    candidateShape "AB12X".data ∧ 5 ≤ "AB12X".data.length :=
  candidate_shape_amended "AB12X".data "AB12X".data (by decide)

/-- Counterexample for claim C5: the text "DE45123456" yields the examined
match "DE45123456" whose country code DE has expected length 22, yet the
candidate passed on has length 10 — a short match is not extended. -/
theorem exact_length_counterexample :
    "DE45123456".data ∈ examinedCandidates "DE45123456".data
    ∧ IBAN_LENGTHS "DE" = some 22
    ∧ exactIbanFor "DE45123456".data = some "DE45123456".data
    ∧ "DE45123456".data.length ≠ 22 := by
  refine ⟨by decide, by decide, by decide, by decide⟩

/-- Claim C5 as amended: for a match whose country code is in the length
table, the candidate passed to the validator (and to variation generation) is
the match truncated to the expected length; its length is the minimum of the
expected length and the match length, so an over-long match is truncated but
an under-long match is passed unchanged, not extended. -/
theorem exact_length_amended : ∀ (potential : List Char) (n : Nat),
    IBAN_LENGTHS (String.mk (potential.take 2)) = some n →
    exactIbanFor potential = some (potential.take n)
    ∧ (potential.take n).length = min n potential.length := by
  intro p n h
  refine ⟨?_, by simp⟩
  unfold exactIbanFor
  rw [h]
  rfl

/-- Witness for claim C5 at the concrete match "DE45123456". -/
theorem exact_length_amended_witness :
    exactIbanFor "DE45123456".data = some ("DE45123456".data.take 22)
    ∧ ("DE45123456".data.take 22).length = min 22 "DE45123456".data.length :=
  exact_length_amended "DE45123456".data 22 (by decide)

/-- Counterexample for claim C7: on the text "GB82WEST123456987654O2" the
extractor does not return the correct identifier "GB82WEST12345698765432". -/
theorem confusion_vector_counterexample :
    extractIBANFromText "GB82WEST123456987654O2" ≠ some "GB82WEST12345698765432" := by
  decide

/-- Claim C7 as amended: on the text "GB82WEST123456987654O2" (the valid
reference IBAN with its trailing 3 misread as O) the extractor returns null,
even though the corrected identifier is valid: the variation search can
replace the O only by the members 0, Q, D of its confusion group, never by 3,
and no generated variation passes validation. -/
theorem confusion_vector_amended :
    extractIBANFromText "GB82WEST123456987654O2" = none
    ∧ (validateIBAN "GB82WEST12345698765432").isValid = true := by
  constructor <;> decide

/-! ## Refinement of the variation loop to a take of the plain enumeration -/

lemma take_append_take {α : Type} (a b : List α) (n : Nat) :
    (a.take n ++ b).take n = (a ++ b).take n := by
  by_cases h : a.length ≤ n
  · rw [List.take_of_length_le h]
  · have hn : n ≤ a.length := Nat.le_of_lt (Nat.lt_of_not_le h)
    have e1 : n - min n a.length = 0 := by omega
    have e2 : n - a.length = 0 := by omega
    rw [List.take_append_eq_append_take, List.take_append_eq_append_take, List.take_take,
      Nat.min_self, List.length_take, e1, e2]

lemma pushAlternates_eq (iban : List Char) (i : Nat) (char : Char) :
    ∀ (group : List Char) (vars : List (List Char)), vars.length < 15 →
    pushAlternates iban i char group vars =
      (vars ++ (group.filter (fun alt => alt != char)).map (substituteAt iban i)).take 15 := by
  intro group
  induction group with
  | nil =>
    intro vars h
    simp [pushAlternates, List.take_of_length_le (Nat.le_of_lt h)]
  | cons alt rest ih =>
    intro vars h
    simp only [pushAlternates]
    cases hbb : alt != char with
    | false =>
      rw [if_neg (by simp), ih vars h]
      simp only [List.filter_cons]
      rw [if_neg (by simp [hbb])]
    | true =>
      rw [if_pos rfl]
      by_cases h15 : 15 ≤ (vars ++ [substituteAt iban i alt]).length
      · rw [if_pos h15]
        have hlen : (vars ++ [substituteAt iban i alt]).length = 15 := by
          simp only [List.length_append, List.length_cons, List.length_nil] at h15 ⊢
          omega
        simp only [List.filter_cons]
        rw [if_pos hbb, List.map_cons]
        have hsplit : vars ++ substituteAt iban i alt ::
            (rest.filter (fun a => a != char)).map (substituteAt iban i) =
            (vars ++ [substituteAt iban i alt]) ++
              (rest.filter (fun a => a != char)).map (substituteAt iban i) := by
          simp
        rw [hsplit, ← hlen, List.take_left]
      · rw [if_neg h15]
        have h' : (vars ++ [substituteAt iban i alt]).length < 15 := Nat.lt_of_not_le h15
        rw [ih _ h']
        simp only [List.filter_cons]
        rw [if_pos hbb, List.map_cons]
        simp

lemma variationLoop_eq (iban : List Char) :
    ∀ (positions : List Nat) (vars : List (List Char)), vars.length ≤ 15 →
    variationLoop iban positions vars =
      (vars ++ positions.flatMap (substitutionsAt iban)).take 15 := by
  intro positions
  induction positions with
  | nil =>
    intro vars h
    simp [variationLoop, List.take_of_length_le h]
  | cons i rest ih =>
    intro vars h
    rw [variationLoop]
    by_cases h15 : vars.length < 15
    · rw [if_pos h15, List.flatMap_cons, ← List.append_assoc]
      split
      next group hf =>
        have hpush := pushAlternates_eq iban i (iban.getD i ' ') group vars h15
        have hsub : substitutionsAt iban i =
            (group.filter (fun alt => alt != iban.getD i ' ')).map (substituteAt iban i) := by
          simp only [substitutionsAt, hf]
        have hlen : (pushAlternates iban i (iban.getD i ' ') group vars).length ≤ 15 := by
          rw [hpush, List.length_take]
          exact Nat.min_le_left _ _
        rw [ih _ hlen, hpush, hsub, take_append_take]
      next hf =>
        have hsub : substitutionsAt iban i = [] := by
          simp only [substitutionsAt, hf]
        rw [ih vars h, hsub, List.append_nil]
    · rw [if_neg h15]
      have hlen : vars.length = 15 := Nat.le_antisymm h (Nat.not_lt.1 h15)
      rw [← hlen, List.take_left]

lemma variations_eq_take (iban : List Char) :
    generateIBANVariationsChars iban = (variationStream iban).take 15 := by
  unfold generateIBANVariationsChars variationStream
  rw [variationLoop_eq iban _ [iban] (by simp)]
  rfl

/-- Counterexample for claim C6: the character Z belongs to no confusion group
of generateIBANVariations (the blanket 2 and Z correction exists only in the
extractor), so the input "XY99ZZZZ" produces no variation at all, while the
claim requires a substitution of 2 for each Z from position 4 on. -/
theorem variation_groups_counterexample :
    generateIBANVariations "XY99ZZZZ" = ["XY99ZZZZ"]
    ∧ "XY992ZZZ" ∉ generateIBANVariations "XY99ZZZZ" := by
  constructor <;> decide

/-- Claim C6 as amended: variation generation walks the positions from index 2
left to right and, for each character in one of the six confusion groups
0/O/Q/D, 1/I/L/|, 5/S, 8/B, 6/G, 7/T (there is no 2/Z group here), emits one
single-position substitution per alternate of the group in listed order; the
produced list is exactly the first 15 entries of that enumeration headed by
the input, so it never exceeds 15 candidates. -/
theorem variation_order_amended : ∀ iban : List Char,
    generateIBANVariationsChars iban = (variationStream iban).take 15
    ∧ (generateIBANVariationsChars iban).length ≤ 15 := by
  intro iban
  refine ⟨variations_eq_take iban, ?_⟩
  rw [variations_eq_take iban, List.length_take]
  exact Nat.min_le_left _ _

/-! ## Invariants of the generated variations -/

lemma mem_substitutionsAt {iban v : List Char} {i : Nat} (hi : i < iban.length)
    (h : v ∈ substitutionsAt iban i) :
    v.length = iban.length ∧ v[i]? ≠ iban[i]? ∧ ∀ j, j ≠ i → v[j]? = iban[j]? := by
  revert h
  cases hf : confusions.find? (fun group => group.contains (iban.getD i ' ')) with
  | none =>
    intro h
    simp only [substitutionsAt, hf] at h
    exact absurd h (List.not_mem_nil v)
  | some group =>
    intro h
    simp only [substitutionsAt, hf] at h
    rcases List.mem_map.1 h with ⟨alt, halt, rfl⟩
    have hne : alt ≠ iban.getD i ' ' := by
      have := (List.mem_filter.1 halt).2
      exact bne_iff_ne.1 this
    have hset : substituteAt iban i alt = iban.set i alt := by
      rw [substituteAt, List.set_eq_take_append_cons_drop, if_pos hi]
    rw [hset]
    refine ⟨List.length_set .., ?_, fun j hj => List.getElem?_set_ne (Ne.symm hj)⟩
    rw [List.getElem?_set_self hi, List.getElem?_eq_getElem hi]
    simp only [ne_eq, Option.some.injEq]
    intro he
    apply hne
    rw [he, List.getD_eq_getElem iban ' ' hi]

lemma mem_positions {iban : List Char} {i : Nat}
    (h : i ∈ List.range' 2 (iban.length - 2)) : 2 ≤ i ∧ i < iban.length := by
  rcases List.mem_range'.1 h with ⟨k, hk, rfl⟩
  omega

/-- Claim C10: every generated variation has the length of the input, the
first entry is the input itself, and every later entry differs from the input
at exactly one position of index at least 2, so the country code is never
altered; the concrete conjunct shows a variation altering position 2, a check
digit. -/
theorem variation_invariants :
    (∀ iban : List Char,
      (∀ v ∈ generateIBANVariationsChars iban, v.length = iban.length)
      ∧ (generateIBANVariationsChars iban).head? = some iban
      ∧ ∀ v ∈ (generateIBANVariationsChars iban).tail,
          ∃ i, 2 ≤ i ∧ i < iban.length ∧ v[i]? ≠ iban[i]?
            ∧ ∀ j, j ≠ i → v[j]? = iban[j]?)
    ∧ ("ABO0000000000000".data ∈ (generateIBANVariationsChars "AB00000000000000".data).tail
        ∧ "ABO0000000000000".data[2]? ≠ "AB00000000000000".data[2]?) := by
  refine ⟨fun iban => ?_, by decide, by decide⟩
  have he := variations_eq_take iban
  refine ⟨?_, ?_, ?_⟩
  · intro v hv
    rw [he] at hv
    have hv' := List.take_subset _ _ hv
    rcases List.mem_cons.1 hv' with rfl | hmem
    · rfl
    · rcases List.mem_flatMap.1 hmem with ⟨i, hi, hsub⟩
      exact (mem_substitutionsAt (mem_positions hi).2 hsub).1
  · rw [he]
    unfold variationStream
    rw [show (15 : Nat) = 14 + 1 from rfl, List.take_succ_cons]
    rfl
  · intro v hv
    rw [he] at hv
    unfold variationStream at hv
    rw [show (15 : Nat) = 14 + 1 from rfl, List.take_succ_cons] at hv
    simp only [List.tail_cons] at hv
    have hv' := List.take_subset _ _ hv
    rcases List.mem_flatMap.1 hv' with ⟨i, hi, hsub⟩
    obtain ⟨h2, hlt⟩ := mem_positions hi
    obtain ⟨_, hne, hrest⟩ := mem_substitutionsAt hlt hsub
    exact ⟨i, h2, hlt, hne, hrest⟩

/-- Witness for claim C10 at a concrete variation of a concrete input. -/
theorem variation_invariants_witness :
    ∃ i, 2 ≤ i ∧ i < ("AB00000000000000".data).length
      ∧ ("ABO0000000000000".data)[i]? ≠ ("AB00000000000000".data)[i]?
      ∧ ∀ j, j ≠ i → ("ABO0000000000000".data)[j]? = ("AB00000000000000".data)[j]? :=
  (variation_invariants.1 "AB00000000000000".data).2.2 "ABO0000000000000".data (by decide)

/-! ## The streaming mod-97 computation -/

lemma foldl_mod97 : ∀ (l : List Char) (r : Nat),
    List.foldl (fun remainder c => (remainder * 10 + parseDigit c) % 97) (r % 97) l
      = (List.foldl (fun n c => n * 10 + parseDigit c) r l) % 97 := by
  intro l
  induction l with
  | nil => intro r; rfl
  | cons c cs ih =>
    intro r
    simp only [List.foldl_cons]
    have h : (r % 97 * 10 + parseDigit c) % 97 = (r * 10 + parseDigit c) % 97 := by omega
    rw [h]
    exact ih (r * 10 + parseDigit c)

lemma mod97_eq_digitsVal (l : List Char) : mod97 l = digitsVal l % 97 := by
  unfold mod97 digitsVal
  have h := foldl_mod97 l 0
  rwa [Nat.zero_mod] at h

lemma countryLenMismatch_of_ok {cleaned : List Char} (h : countryLenOK cleaned = true) :
    countryLenMismatch cleaned = false := by
  revert h
  unfold countryLenOK countryLenMismatch
  cases IBAN_LENGTHS (String.mk (cleaned.take 2)) with
  | none => intro _; rfl
  | some n =>
    intro h
    simp only [beq_iff_eq] at h
    simp [h]

/-- Claim C3: the streaming loop of mod97 agrees with reducing the full
decimal numeral modulo 97 on every digit string, and consequently validateIBAN
accepts a well-formed identifier exactly when the value of its rearranged,
letter-expanded numeral is congruent to 1 modulo 97. -/
theorem mod97_streaming_agrees :
    (∀ l : List Char, (∀ c ∈ l, isDigitChar c = true) → mod97 l = digitsVal l % 97)
    ∧ ∀ s : String, wellFormedClean (cleanIBANChars s.data) →
        ((validateIBAN s).isValid = true ↔
          digitsVal (numericStringOf
            ((cleanIBANChars s.data).drop 4 ++ (cleanIBANChars s.data).take 4)) % 97 = 1) := by
  constructor
  · intro l _
    exact mod97_eq_digitsVal l
  · intro s h
    obtain ⟨h1, h2, h3, h4⟩ := h
    unfold validateIBAN validateIBANChars
    rw [if_neg (Nat.not_lt.2 h1), h2, h3, countryLenMismatch_of_ok h4]
    rw [if_neg (by simp), if_neg (by simp), if_neg (by simp)]
    by_cases hm : mod97 (numericStringOf
        ((cleanIBANChars s.data).drop 4 ++ (cleanIBANChars s.data).take 4)) = 1
    · rw [if_neg (by simp [hm])]
      exact iff_of_true rfl (by rw [← mod97_eq_digitsVal]; exact hm)
    · rw [if_pos (bne_iff_ne.2 hm)]
      exact iff_of_false (by simp) (by rw [← mod97_eq_digitsVal]; exact hm)

/-- Witness for claim C3: the streaming agreement at the digit string 123 and
the checksum characterization at the reference IBAN. -/
theorem mod97_streaming_agrees_witness :
    mod97 "123".data = digitsVal "123".data % 97
    ∧ ((validateIBAN "GB82WEST12345698765432").isValid = true ↔
        digitsVal (numericStringOf
          ((cleanIBANChars "GB82WEST12345698765432".data).drop 4 ++
            (cleanIBANChars "GB82WEST12345698765432".data).take 4)) % 97 = 1) :=
  ⟨mod97_streaming_agrees.1 "123".data (by decide),
   mod97_streaming_agrees.2 "GB82WEST12345698765432" (by decide)⟩

/-! ## Soundness of the extractor -/

lemma tryMatch_valid {p r : List Char} (h : tryMatch p = some r) :
    (validateIBANChars r).isValid = true := by
  unfold tryMatch at h
  cases hE : exactIbanFor p with
  | some exactIban =>
    simp only [hE] at h
    by_cases hv : (validateIBANChars exactIban).isValid = true
    · rw [if_pos hv] at h
      injection h with h'
      subst h'
      exact hv
    · rw [if_neg hv] at h
      have hfind := List.find?_some h
      simpa using hfind
  | none =>
    simp only [hE] at h
    obtain ⟨len, _, hsome⟩ := List.exists_of_findSome?_eq_some h
    by_cases hv : (validateIBANChars (p.take len)).isValid = true
    · rw [if_pos hv] at hsome
      injection hsome with h'
      subst h'
      exact hv
    · rw [if_neg hv] at hsome
      exact absurd hsome (by simp)

/-- Claim C1: every non-null result of extractIBANFromText is a string the
validator accepts; failure is the returned null, and the embedding is a total
function, so no outcome is an exception. -/
theorem extract_returns_valid : ∀ (text s : String),
    extractIBANFromText text = some s → (validateIBAN s).isValid = true := by
  intro text s h
  unfold extractIBANFromText at h
  rcases Option.map_eq_some'.1 h with ⟨r, hr, rfl⟩
  unfold extractFromTextChars at hr
  obtain ⟨t, _, ht⟩ := List.exists_of_findSome?_eq_some hr
  obtain ⟨m, _, hm⟩ := List.exists_of_findSome?_eq_some ht
  exact tryMatch_valid hm

/-- Witness for claim C1 at a concrete noisy text. -/
theorem extract_returns_valid_witness :
    (validateIBAN "GB82WEST12345698765432").isValid = true :=
  extract_returns_valid "noise GB82WEST12345698765432 noise" "GB82WEST12345698765432"
    (by decide)

/-! ## Round trip of the display format through cleaning -/

lemma ws_not_alnum {a : Char} (h : jsWhitespace a = true) : isUpperAlnum a = false := by
  have hn : a.toNat = 32 ∨ a.toNat = 9 ∨ a.toNat = 10 ∨ a.toNat = 11 ∨ a.toNat = 12
      ∨ a.toNat = 13 := by
    simpa [jsWhitespace, or_assoc] using h
  by_contra hc
  have h2 : isUpperAlnum a = true := by
    cases hha : isUpperAlnum a
    · exact absurd hha hc
    · rfl
  simp only [isUpperAlnum, isUpperLetter, isDigitChar, Bool.or_eq_true, Bool.and_eq_true,
    decide_eq_true_eq] at h2
  rcases hn with h | h | h | h | h | h <;> omega

lemma alnum_not_ws {a : Char} (h : isUpperAlnum a = true) : jsWhitespace a = false := by
  cases hw : jsWhitespace a with
  | false => rfl
  | true => exact absurd h (by rw [ws_not_alnum hw]; simp)

lemma filter_dropWhile {p q : Char → Bool} (hpq : ∀ a, q a = true → p a = false) :
    ∀ l : List Char, (l.dropWhile q).filter p = l.filter p := by
  intro l
  induction l with
  | nil => rfl
  | cons a l ih =>
    rw [List.dropWhile_cons]
    by_cases hqa : q a = true
    · rw [if_pos hqa, ih, List.filter_cons, if_neg (by simp [hpq a hqa])]
    · rw [if_neg hqa]

lemma filter_trim {p : Char → Bool} (hp : ∀ a, jsWhitespace a = true → p a = false)
    (l : List Char) : (trimChars l).filter p = l.filter p := by
  unfold trimChars
  rw [List.filter_reverse, filter_dropWhile hp, List.filter_reverse, List.reverse_reverse,
    filter_dropWhile hp]

lemma trim_subset (l : List Char) : trimChars l ⊆ l := by
  unfold trimChars
  intro a ha
  rw [List.mem_reverse] at ha
  have h1 := List.dropWhile_subset jsWhitespace ha
  rw [List.mem_reverse] at h1
  exact List.dropWhile_subset jsWhitespace h1

lemma mem_clean_alnum {a : Char} {l : List Char} (h : a ∈ cleanIBANChars l) :
    isUpperAlnum a = true := by
  unfold cleanIBANChars at h
  exact (List.mem_filter.1 (trim_subset _ h)).2

lemma toUpper_alnum {a : Char} (h : isUpperAlnum a = true) : a.toUpper = a := by
  simp only [isUpperAlnum, isUpperLetter, isDigitChar, Bool.or_eq_true, Bool.and_eq_true,
    decide_eq_true_eq] at h
  simp only [Char.toUpper]
  rw [if_neg]
  rcases h with ⟨h1, h2⟩ | ⟨h1, h2⟩ <;> omega

lemma mem_blocks {a : Char} : ∀ (fuel : Nat) (l : List Char),
    a ∈ blocks4Go fuel l → a ∈ l ∨ a = ' ' := by
  intro fuel
  induction fuel with
  | zero => intro l h; exact Or.inl h
  | succ fuel ih =>
    intro l h
    rw [blocks4Go] at h
    by_cases h4 : 4 ≤ l.length
    · rw [if_pos h4] at h
      rcases List.mem_append.1 h with h1 | h2
      · exact Or.inl (List.take_subset _ _ h1)
      · rcases List.mem_cons.1 h2 with rfl | h3
        · exact Or.inr rfl
        · rcases ih _ h3 with h5 | h5
          · exact Or.inl (List.drop_subset _ _ h5)
          · exact Or.inr h5
    · rw [if_neg h4] at h
      exact Or.inl h

lemma filter_blocks {p : Char → Bool} (hsp : p ' ' = false) :
    ∀ (fuel : Nat) (l : List Char), (blocks4Go fuel l).filter p = l.filter p := by
  intro fuel
  induction fuel with
  | zero => intro l; rfl
  | succ fuel ih =>
    intro l
    rw [blocks4Go]
    by_cases h4 : 4 ≤ l.length
    · rw [if_pos h4, List.filter_append, List.filter_cons, if_neg (by simp [hsp]), ih,
        ← List.filter_append, List.take_append_drop]
    · rw [if_neg h4]

lemma trim_eq_self_of_no_ws {l : List Char} (h : ∀ a ∈ l, jsWhitespace a = false) :
    trimChars l = l := by
  have hdrop : ∀ m : List Char, (∀ a ∈ m, jsWhitespace a = false) →
      m.dropWhile jsWhitespace = m := by
    intro m hm
    cases m with
    | nil => rfl
    | cons a t => rw [List.dropWhile_cons, if_neg (by simp [hm a (List.mem_cons_self a t)])]
  unfold trimChars
  rw [hdrop l h, hdrop _ (fun a ha => h a (List.mem_reverse.1 ha)), List.reverse_reverse]

/-- Claim C8: cleaning undoes the display formatting — for every string, the
cleaned form of the formatted identifier equals the cleaned form of the
original, the formatter grouping the cleaned identifier into blocks of four
characters separated by single spaces with a trailing partial block left
unseparated. -/
theorem format_roundtrip : ∀ x : String,
    cleanIBAN (formatIBANForDisplay x) = cleanIBAN x := by
  intro x
  unfold cleanIBAN formatIBANForDisplay
  congr 1
  show cleanIBANChars
      (trimChars (blocks4Go (cleanIBANChars x.data).length (cleanIBANChars x.data)))
    = cleanIBANChars x.data
  set c := cleanIBANChars x.data with hc
  have hmem : ∀ a ∈ c, isUpperAlnum a = true := fun a ha => mem_clean_alnum ha
  unfold cleanIBANChars
  have hub : ∀ a ∈ trimChars (blocks4Go c.length c), a.toUpper = a := by
    intro a ha
    rcases mem_blocks _ _ (trim_subset _ ha) with h2 | rfl
    · exact toUpper_alnum (hmem a h2)
    · decide
  have hmap : (trimChars (blocks4Go c.length c)).map Char.toUpper
      = (trimChars (blocks4Go c.length c)).map id := List.map_congr_left hub
  rw [hmap, List.map_id, filter_trim (fun a ha => ws_not_alnum ha), filter_blocks (by decide),
    List.filter_eq_self.2 hmem]
  exact trim_eq_self_of_no_ws (fun a ha => alnum_not_ws (hmem a ha))

end Iban
